import Mathlib

/-!
Verification of the client-side protocol/session layer of the simple-owot-bot
library: coordinate mapping (src/utils.ts), text segmentation
(src/private_utils.ts `advancedSplit`), tile protection decoding
(src/tile.ts), and the write pipeline and fetch validation of the `Bot`
class (src/bot.ts).

The embedding is shallow: JavaScript numbers are modelled as `Int`
(coordinates, colors, reason codes) or `Nat` (ids, indices); JS strings are
modelled as lists of UTF-16 code units (`List Nat`); the `Map`s used for
waiting edits are modelled as association lists in insertion order, matching
JS `Map` iteration semantics; the mutable `Bot` fields relevant to the write
pipeline are gathered in a `BotState` record and every method becomes a
state-passing function that additionally returns what was transmitted to the
websocket and which events were emitted.
-/

namespace SimpleOwotBot

/-! ### Coordinate mapping (src/utils.ts)

`Math.floor(x / d)` on integers is `Int.fdiv x d`.
-/

/-- `coordsTileToChar(tileX, tileY, charX, charY)` from src/utils.ts:
`[tileX * 16 + charX, tileY * 8 + charY]`. -/
def coordsTileToChar (tileX tileY charX charY : Int) : Int × Int :=
  (tileX * 16 + charX, tileY * 8 + charY)

/-- `coordsCharToTile(x, y)` from src/utils.ts:
`[Math.floor(x/16), Math.floor(y/8), x - Math.floor(x/16)*16, y - Math.floor(y/8)*8]`. -/
def coordsCharToTile (x y : Int) : Int × Int × Int × Int :=
  (x.fdiv 16, y.fdiv 8, x - (x.fdiv 16) * 16, y - (y.fdiv 8) * 8)

/-! ### Text segmentation (src/private_utils.ts `advancedSplit`)

The function is modelled at its default call sites (`advancedSplit(str)`
with `noSurrog`, `noComb`, `norm` all undefined, hence falsy).  A JS string
is a sequence of UTF-16 code units; `str[i].charCodeAt(0)` is the i-th code
unit, so the input is `List Nat` and each produced unit is a `List Nat`.
-/

/-- The combining-mark code unit ranges tested by `advancedSplit`. -/
def combiningCode (code : Nat) : Bool :=
  decide ((0x0300 ≤ code ∧ code ≤ 0x036F) ∨ (0x1DC0 ≤ code ∧ code ≤ 0x1DFF) ∨
    (0x20D0 ≤ code ∧ code ≤ 0x20FF) ∨ (0xFE20 ≤ code ∧ code ≤ 0xFE2F))

/-- The `"?"` placeholder unit pushed for stray surrogates. -/
def qmark : List Nat := [0x3F]

/-- The loop-carried mutable variables of `advancedSplit`:
`chars`, `buffer`, `surrogMode`, `charMode`, `combCount`. -/
structure SplitState where
  chars : List (List Nat)
  buffer : List Nat
  surrogMode : Bool
  charMode : Bool
  combCount : Nat
deriving DecidableEq

/-- One iteration of the `advancedSplit` loop body on code unit `code`,
with `combLimit = 15` and the three option flags falsy. -/
def advancedSplitStep (st : SplitState) (code : Nat) : SplitState :=
  if 0xDC00 ≤ code ∧ code ≤ 0xDFFF then
    if st.surrogMode then
      { st with buffer := st.buffer ++ [code], surrogMode := false, combCount := 0 }
    else
      { st with buffer := [], chars := st.chars ++ [qmark], surrogMode := false, combCount := 0 }
  else if st.surrogMode then
    { st with buffer := [], chars := st.chars ++ [qmark], surrogMode := false }
  else if 0xD800 ≤ code ∧ code ≤ 0xDBFF then
    { st with chars := st.chars ++ (if st.charMode then [st.buffer] else []),
              charMode := true, surrogMode := true, buffer := [code] }
  else if combiningCode code then
    if st.charMode ∧ st.combCount < 15 then
      { st with buffer := st.buffer ++ [code], combCount := st.combCount + 1 }
    else st
  else
    { st with chars := st.chars ++ (if st.charMode then [st.buffer] else []),
              combCount := 0, charMode := true, buffer := [code] }

/-- `advancedSplit(str)` (string branch; the array branch returns a copy). -/
def advancedSplit (str : List Nat) : List (List Nat) :=
  let st := str.foldl advancedSplitStep ⟨[], [], false, false, 0⟩
  if st.buffer = [] then st.chars else st.chars ++ [st.buffer]

/-! ### Tile protection decoding (src/tile.ts) -/

/-- The base64 alphabet `b64table` of src/tile.ts. -/
def b64table : List Char :=
  "ABCDEFGHIJKLMNOPQRSTUVWXYZabcdefghijklmnopqrstuvwxyz0123456789+/".toList

/-- JS `b64table.indexOf(c)`: index of `c`, or `-1` when absent. -/
def b64indexOf (c : Char) : Int :=
  match b64table.findIdx? (fun x => x = c) with
  | some i => (i : Int)
  | none => -1

/-- `unshiftProtection` from src/tile.ts: `1 ↦ 0`, `2 ↦ 1`, `3 ↦ 2`,
anything else `↦ null`. -/
def unshiftProtection (value : Int) : Option Nat :=
  if value = 1 then some 0
  else if value = 2 then some 1
  else if value = 3 then some 2
  else none

/-- JS `byte >> 4 & 3` (arithmetic shift is floor division, the mask keeps
the low two bits, i.e. the nonnegative remainder mod 4). -/
def protFieldHigh (byte : Int) : Int := (byte.fdiv 16) % 4

/-- JS `byte >> 2 & 3`. -/
def protFieldMid (byte : Int) : Int := (byte.fdiv 4) % 4

/-- JS `byte & 3`. -/
def protFieldLow (byte : Int) : Int := byte % 4

/-- The `for` loop of `decodeProtection`: iteration `i` decodes encoded
character `data[i]` into cells `i*3`, `i*3+1`, `i*3+2` of the output. -/
def decodeProtLoop : List Char → Nat → List (Option Nat) → List (Option Nat)
  | [], _, out => out
  | c :: rest, i, out =>
    let byte := b64indexOf c
    let out1 := out.set (i * 3) (unshiftProtection (protFieldHigh byte))
    let out2 := out1.set (i * 3 + 1) (unshiftProtection (protFieldMid byte))
    let out3 := out2.set (i * 3 + 2) (unshiftProtection (protFieldLow byte))
    decodeProtLoop rest (i + 1) out3

/-- `decodeProtection` from src/tile.ts.  `propChar` is
`tile.properties.char` (`none` models both an absent field and, together
with the emptiness test, any falsy value); the first character of the
string is skipped (`substring(1)`), and the output starts as 128 `null`s. -/
def decodeProtection (propChar : Option (List Char)) : List (Option Nat) :=
  let output : List (Option Nat) := List.replicate 128 none
  match propChar with
  | none => output
  | some s => if s = [] then output else decodeProtLoop (s.drop 1) 0 output

/-- A cell link: URL string, coordinate pair, or `null`. -/
inductive Link
  | url (s : List Nat)
  | coord (tx ty : Int)
  | noLink
deriving DecidableEq

/-- The record returned by `Tile.getChar`. -/
structure CharCell where
  char : List Nat
  color : Int
  bgColor : Int
  protection : Option Nat
  link : Link
deriving DecidableEq

/-- The decoded `Tile` fields used by `getChar`. -/
structure Tile where
  x : Int
  y : Int
  content : List (List Nat)
  color : List Int
  bcolor : List Int
  writability : Option Nat
  protections : List (Option Nat)
  links : List Link
deriving DecidableEq

/-- `Tile.getChar(x, y)` from src/tile.ts: index `i = y * 16 + x`; a `null`
cell protection falls back to the tile-level `writability`. -/
def Tile.getChar (t : Tile) (cx cy : Nat) : CharCell :=
  let i := cy * 16 + cx
  let prot := match t.protections.getD i none with
    | none => t.writability
    | some p => some p
  { char := t.content.getD i [], color := t.color.getD i 0,
    bgColor := t.bcolor.getD i 0, protection := prot,
    link := t.links.getD i Link.noLink }

/-! ### The write pipeline and fetch validation (src/bot.ts)

A `Write` is the tuple
`[tileY, tileX, charY, charX, timestamp, char, id, color, bgcolor]`
built by `writeChar`.  `waitingEdits : Map<number, Write>` is modelled as an
association list in insertion order (JS `Map` iterates in insertion order;
`set` of an existing key updates in place, `delete` removes, `get` looks
up).
-/

/-- One pending edit, the `Write` tuple of src/bot.ts. -/
structure Write where
  tileY : Int
  tileX : Int
  charY : Int
  charX : Int
  timestamp : Int
  char : List Nat
  id : Nat
  color : Int
  bgcolor : Int
deriving DecidableEq

/-- The `Bot` fields owned by the write pipeline and fetch correlation:
`nextEditId`, `nextFetchId`, `writeBuffer`, `waitingEdits`. -/
structure BotState where
  nextEditId : Nat
  nextFetchId : Nat
  writeBuffer : List Write
  waitingEdits : List (Nat × Write)
deriving DecidableEq

/-- The field initializers of the `Bot` class. -/
def initState : BotState :=
  { nextEditId := 0, nextFetchId := 0, writeBuffer := [], waitingEdits := [] }

/-- JS `Map.prototype.set`: update in place when the key exists, else
append in insertion order. -/
def mapSet (m : List (Nat × Write)) (k : Nat) (v : Write) : List (Nat × Write) :=
  if m.any (fun p => p.1 = k) then
    m.map (fun p => if p.1 = k then (k, v) else p)
  else m ++ [(k, v)]

/-- JS `Map.prototype.delete`. -/
def mapDelete (m : List (Nat × Write)) (k : Nat) : List (Nat × Write) :=
  m.filter (fun p => p.1 ≠ k)

/-- JS `Map.prototype.get` (`none` models `undefined`). -/
def mapGet (m : List (Nat × Write)) (k : Nat) : Option Write :=
  (m.find? (fun p => p.1 = k)).map (fun p => p.2)

/-- The edit tuple `writeChar` constructs for position `(x, y)`. -/
def mkEdit (x y : Int) (ch : List Nat) (id : Nat) (color bgcolor now : Int) : Write :=
  { tileY := y.fdiv 8, tileX := x.fdiv 16,
    charY := y - (y.fdiv 8) * 8, charX := x - (x.fdiv 16) * 16,
    timestamp := now, char := ch, id := id, color := color, bgcolor := bgcolor }

/-- `writeChar(x, y, char, color, bgcolor)`: assign id `++nextEditId`,
push the edit on `writeBuffer` and record it in `waitingEdits`.
`now` stands for `Date.now()`. -/
def writeChar (s : BotState) (x y : Int) (ch : List Nat) (color bgcolor now : Int) : BotState :=
  let id := s.nextEditId + 1
  let edit := mkEdit x y ch id color bgcolor now
  { s with nextEditId := id,
           writeBuffer := s.writeBuffer ++ [edit],
           waitingEdits := mapSet s.waitingEdits id edit }

/-- The unit produced for a `"\n"` code unit, compared by `char === "\n"`. -/
def newlineUnit : List Nat := [0x0A]

/-- The `for` loop of `writeText`: `ix` is the saved starting column. -/
def writeTextLoop (s : BotState) (ix x y : Int) (units : List (List Nat))
    (color bgcolor now : Int) : BotState :=
  match units with
  | [] => s
  | u :: rest =>
    if u = newlineUnit then
      writeTextLoop s ix ix (y + 1) rest color bgcolor now
    else
      writeTextLoop (writeChar s x y u color bgcolor now) ix (x + 1) y rest color bgcolor now

/-- `writeText(x, y, text, color, bgcolor)`: segment `text` with
`advancedSplit` and run the loop. -/
def writeText (s : BotState) (x y : Int) (text : List Nat) (color bgcolor now : Int) : BotState :=
  writeTextLoop s x x y (advancedSplit text) color bgcolor now

/-- `flushWrites()`: nothing on an empty buffer; otherwise transmit
`writeBuffer.splice(0, 512)` as one batch.  The first component is the
transmitted batch (`none` = nothing transmitted). -/
def flushWrites (s : BotState) : Option (List Write) × BotState :=
  if s.writeBuffer = [] then (none, s)
  else (some (s.writeBuffer.take 512), { s with writeBuffer := s.writeBuffer.drop 512 })

/-- The `WriteResultState` enum of src/bot.ts. -/
inductive WriteResultState
  | accepted
  | ratelimited
  | rejected
deriving DecidableEq

/-- The observable events of the write pipeline. -/
inductive BotEvent
  | writeResult (id : Nat) (st : WriteResultState)
  | writeBufferEmpty
deriving DecidableEq

/-- `clearWriteBuffer()`: clear both structures and emit
`writeBufferEmpty`. -/
def clearWriteBuffer (s : BotState) : BotState × List BotEvent :=
  ({ s with waitingEdits := [], writeBuffer := [] }, [BotEvent.writeBufferEmpty])

/-- The first loop of the `message_write` handler: for each accepted id,
delete it from `waitingEdits` and emit an accepted `writeResult`. -/
def processAccepted (s : BotState) : List Nat → BotState × List BotEvent
  | [] => (s, [])
  | id :: rest =>
    let s1 := { s with waitingEdits := mapDelete s.waitingEdits id }
    let r := processAccepted s1 rest
    (r.1, BotEvent.writeResult id WriteResultState.accepted :: r.2)

/-- One iteration of the rejected loop of the `message_write` handler:
codes 1 and 4 delete the edit and emit `Rejected`; any other code emits
`Ratelimited` and, when the id is still waiting, re-appends the stored
edit to `writeBuffer` (the `if (!edit) continue` guard is the `none`
case). -/
def processRejectedOne (s : BotState) (i : Nat) (rej : Int) : BotState × List BotEvent :=
  if rej = 1 ∨ rej = 4 then
    ({ s with waitingEdits := mapDelete s.waitingEdits i },
     [BotEvent.writeResult i WriteResultState.rejected])
  else
    match mapGet s.waitingEdits i with
    | none => (s, [BotEvent.writeResult i WriteResultState.ratelimited])
    | some e => ({ s with writeBuffer := s.writeBuffer ++ [e] },
                 [BotEvent.writeResult i WriteResultState.ratelimited])

/-- The rejected loop, over the `(id, reason)` entries of `data.rejected`. -/
def processRejected (s : BotState) : List (Nat × Int) → BotState × List BotEvent
  | [] => (s, [])
  | (i, rej) :: rest =>
    let r1 := processRejectedOne s i rej
    let r2 := processRejected r1.1 rest
    (r2.1, r1.2 ++ r2.2)

/-- The whole `message_write` handler: accepted ids, then rejected ids,
then `writeBufferEmpty` when both structures ended up empty. -/
def handleWrite (s : BotState) (accepted : List Nat) (rejected : List (Nat × Int)) :
    BotState × List BotEvent :=
  let ra := processAccepted s accepted
  let rr := processRejected ra.1 rejected
  if rr.1.waitingEdits = [] ∧ rr.1.writeBuffer = [] then
    (rr.1, ra.2 ++ rr.2 ++ [BotEvent.writeBufferEmpty])
  else (rr.1, ra.2 ++ rr.2)

/-- The `fetch` request frame transmitted by `fetchTiles`. -/
structure FetchMsg where
  request : Nat
  minX : Int
  minY : Int
  maxX : Int
  maxY : Int
deriving DecidableEq

/-- `fetchTiles(minX, minY, maxX, maxY)`: reject (transmitting nothing and
leaving the state untouched) when `(maxX - minX) * (maxY - minY) > 2500`;
otherwise take id `nextFetchId++` and transmit the fetch frame.  The first
component is the transmitted frame (`none` = rejected before
transmission). -/
def fetchTiles (s : BotState) (minX minY maxX maxY : Int) : Option FetchMsg × BotState :=
  if (maxX - minX) * (maxY - minY) > 2500 then (none, s)
  else
    (some { request := s.nextFetchId, minX := minX, minY := minY, maxX := maxX, maxY := maxY },
     { s with nextFetchId := s.nextFetchId + 1 })

/-- The inclusive tile count of a fetch rectangle, the measure the spec
counts ("a rectangle of 10201 tiles" for corners 0..100). -/
def tileCount (minX minY maxX maxY : Int) : Int :=
  (maxX - minX + 1) * (maxY - minY + 1)

/-! ### Operation traces

The write pipeline's externally triggerable operations, used to state
trace invariants ("never reappears in a later flush", edit-id
monotonicity). -/

/-- An externally triggered write-pipeline operation. -/
inductive BotOp
  | opWriteChar (x y : Int) (ch : List Nat) (color bgcolor now : Int)
  | opWriteText (x y : Int) (text : List Nat) (color bgcolor now : Int)
  | opFlush
  | opWriteMsg (accepted : List Nat) (rejected : List (Nat × Int))
  | opClear

/-- The effect of one operation: next state, transmitted write batches,
emitted events. -/
structure StepResult where
  state : BotState
  batches : List (List Write)
  events : List BotEvent

/-- Apply one operation to the state. -/
def applyOp (s : BotState) : BotOp → StepResult
  | .opWriteChar x y ch c b n =>
    { state := writeChar s x y ch c b n, batches := [], events := [] }
  | .opWriteText x y t c b n =>
    { state := writeText s x y t c b n, batches := [], events := [] }
  | .opFlush =>
    let r := flushWrites s
    { state := r.2,
      batches := match r.1 with | none => [] | some ws => [ws],
      events := [] }
  | .opWriteMsg a rj =>
    let r := handleWrite s a rj
    { state := r.1, batches := [], events := r.2 }
  | .opClear =>
    let r := clearWriteBuffer s
    { state := r.1, batches := [], events := r.2 }

/-- The edit ids assigned during one operation: `nextEditId` is bumped once
per `writeChar` call, so they are exactly the ids between the old and new
counter values. -/
def assignedIds (s : BotState) (op : BotOp) : List Nat :=
  List.range' (s.nextEditId + 1) ((applyOp s op).state.nextEditId - s.nextEditId)

/-- The accumulated result of a trace of operations. -/
structure RunResult where
  state : BotState
  batches : List (List Write)
  assigned : List Nat

/-- Run a trace of operations. -/
def runOps (s : BotState) : List BotOp → RunResult
  | [] => { state := s, batches := [], assigned := [] }
  | op :: rest =>
    let r := applyOp s op
    let rr := runOps r.state rest
    { state := rr.state, batches := r.batches ++ rr.batches,
      assigned := assignedIds s op ++ rr.assigned }

/-- Well-formedness of the waiting-edit table: every entry is stored under
its own edit id (true at every reachable state: `writeChar` stores the
fresh edit under its id and nothing else inserts). -/
def WaitingWF (s : BotState) : Prop := ∀ p ∈ s.waitingEdits, p.2.id = p.1

/-- Edit id `id` has been fully retired: absent from the waiting table,
absent from the outgoing buffer, and not larger than the id counter. -/
def IdGone (id : Nat) (s : BotState) : Prop :=
  mapGet s.waitingEdits id = none ∧ (∀ e ∈ s.writeBuffer, e.id ≠ id) ∧
    id ≤ s.nextEditId ∧ WaitingWF s

/-! ### Concrete scenario states and the spec-side writeText description -/

/-- A state built by `n` successive `writeChar` calls from a fresh bot. -/
def writeCharN : Nat → BotState
  | 0 => initState
  | n + 1 => writeChar (writeCharN n) 0 0 [0x45] 0 (-1) 0

/-- Modelled from the spec's words, for comparison with `writeText`: one
edit per segmented unit at a column advancing by 1 per unit, except the
unit `"\n"`, which produces no edit, resets the column to the starting
column `x0` and advances the row by 1; edit ids continue from `lastId`
without gaps or reassignment. -/
def specWriteTextEdits (x0 x y : Int) (units : List (List Nat)) (lastId : Nat)
    (color bgcolor now : Int) : List Write :=
  match units with
  | [] => []
  | u :: rest =>
    if u = newlineUnit then
      specWriteTextEdits x0 x0 (y + 1) rest lastId color bgcolor now
    else
      mkEdit x y u (lastId + 1) color bgcolor now ::
        specWriteTextEdits x0 (x + 1) y rest (lastId + 1) color bgcolor now

/-- An edit with id 0, standing for 512 already-buffered newer edits. -/
def dummyEdit : Write := mkEdit 0 0 [0x45] 0 0 (-1) 0

/-- The in-flight edit with id 7 of the C1 scenario. -/
def edit7 : Write := mkEdit 3 2 [0x41] 7 0 (-1) 0

/-- A state with edit 7 in flight (waiting, not buffered) and 512 newer
edits already queued in the outgoing buffer. -/
def c1State : BotState :=
  { nextEditId := 520, nextFetchId := 0,
    writeBuffer := List.replicate 512 dummyEdit, waitingEdits := [(7, edit7)] }

/-- A state with only edit 7 in flight, used to witness C1. -/
def c1SmallState : BotState :=
  { nextEditId := 7, nextFetchId := 0, writeBuffer := [], waitingEdits := [(7, edit7)] }

/-- The state reached by clearing the write buffer after three writes: both
structures empty, ids 1..3 discarded. -/
def c3State : BotState := (clearWriteBuffer (writeCharN 3)).1

/-! ### Association-list map lemmas -/

theorem mapGet_eq_none_iff (m : List (Nat × Write)) (k : Nat) :
    mapGet m k = none ↔ ∀ p ∈ m, p.1 ≠ k := by
  simp [mapGet, List.find?_eq_none]

theorem mem_mapSet {m : List (Nat × Write)} {k : Nat} {v : Write} {p : Nat × Write}
    (h : p ∈ mapSet m k v) : p = (k, v) ∨ p ∈ m := by
  unfold mapSet at h
  split at h
  · rcases List.mem_map.1 h with ⟨q, hq, he⟩
    by_cases hqk : q.1 = k
    · rw [if_pos hqk] at he
      exact Or.inl he.symm
    · rw [if_neg hqk] at he
      exact Or.inr (he ▸ hq)
  · rcases List.mem_append.1 h with h1 | h1
    · exact Or.inr h1
    · exact Or.inl (by simpa using h1)

theorem mem_mapDelete {m : List (Nat × Write)} {k : Nat} {p : Nat × Write}
    (h : p ∈ mapDelete m k) : p ∈ m :=
  List.mem_of_mem_filter h

theorem mapGet_delete_self (m : List (Nat × Write)) (k : Nat) :
    mapGet (mapDelete m k) k = none := by
  rw [mapGet_eq_none_iff]
  intro p hp
  simpa using List.of_mem_filter hp

theorem mapDelete_eq_self_of_get_none {m : List (Nat × Write)} {k : Nat}
    (h : mapGet m k = none) : mapDelete m k = m := by
  rw [mapGet_eq_none_iff] at h
  apply List.filter_eq_self.2
  intro p hp
  simpa using h p hp

theorem mapGet_some_id {m : List (Nat × Write)} {k : Nat} {e : Write}
    (hwf : ∀ p ∈ m, p.2.id = p.1) (h : mapGet m k = some e) : e.id = k := by
  unfold mapGet at h
  rcases Option.map_eq_some'.1 h with ⟨p, hp, he⟩
  have h1 := List.find?_some hp
  have h2 := List.mem_of_find?_eq_some hp
  have h3 := hwf p h2
  simp only [decide_eq_true_eq] at h1
  rw [← he, h3, h1]

/-! ### Claim theorems: coordinate mapping -/

/-- C7: for every integer pair `(x, y)`, `coordsTileToChar` applied to the
four components returned by `coordsCharToTile x y` returns exactly
`(x, y)` (round-trip law with tile size 16 by 8). -/
theorem C7_coords_round_trip (x y : Int) :
    coordsTileToChar (coordsCharToTile x y).1 (coordsCharToTile x y).2.1
      (coordsCharToTile x y).2.2.1 (coordsCharToTile x y).2.2.2 = (x, y) := by
  simp only [coordsTileToChar, coordsCharToTile, Prod.mk.injEq]
  constructor <;> ring

/-- C9: for every integer pair `(x, y)`, including negatives,
`coordsCharToTile x y = (tileX, tileY, charX, charY)` satisfies
`0 ≤ charX < 16`, `0 ≤ charY < 8`, `tileX * 16 + charX = x` and
`tileY * 8 + charY = y`. -/
theorem C9_charToTile_offsets_valid (x y : Int) :
    0 ≤ (coordsCharToTile x y).2.2.1 ∧ (coordsCharToTile x y).2.2.1 < 16 ∧
    0 ≤ (coordsCharToTile x y).2.2.2 ∧ (coordsCharToTile x y).2.2.2 < 8 ∧
    (coordsCharToTile x y).1 * 16 + (coordsCharToTile x y).2.2.1 = x ∧
    (coordsCharToTile x y).2.1 * 8 + (coordsCharToTile x y).2.2.2 = y := by
  simp only [coordsCharToTile]
  rw [Int.fdiv_eq_ediv x (by norm_num), Int.fdiv_eq_ediv y (by norm_num)]
  have hx0 := Int.emod_nonneg x (b := 16) (by norm_num)
  have hx1 := Int.emod_lt_of_pos x (b := 16) (by norm_num)
  have hy0 := Int.emod_nonneg y (b := 8) (by norm_num)
  have hy1 := Int.emod_lt_of_pos y (b := 8) (by norm_num)
  rw [Int.emod_def] at hx0 hx1 hy0 hy1
  refine ⟨by linarith, by linarith, by linarith, by linarith, by ring, by ring⟩

/-! ### Claim theorems: fetch validation (C4) -/

/-- C4, counterexample to the claim as stated: the rectangle with corners
(0,0) and (50,50) spans 51 * 51 = 2601 tiles, more than 2500, yet
`fetchTiles` transmits the fetch frame instead of rejecting: the code
compares the product of the coordinate differences
`(maxX - minX) * (maxY - minY) = 2500`, not the inclusive tile count. -/
theorem C4_counterexample :
    tileCount 0 0 50 50 = 2601 ∧ (2500 : Int) < tileCount 0 0 50 50 ∧
    (fetchTiles initState 0 0 50 50).1 =
      some { request := 0, minX := 0, minY := 0, maxX := 50, maxY := 50 } := by
  refine ⟨by decide, by decide, ?_⟩
  rfl

/-- C4, amended: `fetchTiles` rejects before any transmission (leaving the
state untouched) exactly when `(maxX - minX) * (maxY - minY) > 2500`, the
area computed from coordinate differences (not the inclusive tile count);
otherwise the fetch frame is transmitted with the next fetch id.  In
particular `fetchTiles(0, 0, 100, 100)` rejects before any transmission. -/
theorem C4_area_check (s : BotState) (minX minY maxX maxY : Int) :
    ((maxX - minX) * (maxY - minY) > 2500 →
      fetchTiles s minX minY maxX maxY = (none, s)) ∧
    (¬ (maxX - minX) * (maxY - minY) > 2500 →
      (fetchTiles s minX minY maxX maxY).1 =
        some { request := s.nextFetchId, minX := minX, minY := minY,
               maxX := maxX, maxY := maxY } ∧
      (fetchTiles s minX minY maxX maxY).2.nextFetchId = s.nextFetchId + 1) ∧
    (fetchTiles s 0 0 100 100).1 = none := by
  refine ⟨fun h => ?_, fun h => ?_, ?_⟩
  · simp [fetchTiles, h]
  · simp [fetchTiles, h]
  · simp [fetchTiles]

/-- Witness for C4_area_check at concrete inputs. -/
theorem C4_area_check_witness :
    fetchTiles initState 0 0 100 100 = (none, initState) ∧
    (fetchTiles initState 0 0 1 1).1 =
      some { request := 0, minX := 0, minY := 0, maxX := 1, maxY := 1 } :=
  ⟨(C4_area_check initState 0 0 100 100).1 (by norm_num),
   ((C4_area_check initState 0 0 1 1).2.1 (by norm_num)).1⟩

/-! ### Claim theorems: text segmentation (C10) -/

/-- C10: in `advancedSplit`, an unpaired low surrogate (a code unit in
0xDC00..0xDFFF arriving with `surrogMode` off) clears the pending buffered
unit before pushing the `"?"` placeholder, so the base character
immediately preceding it is dropped; in particular the input
`'a'` followed by a lone low surrogate segments to `["?"]`, not
`["a", "?"]`. -/
theorem C10_lone_low_surrogate :
    (∀ (st : SplitState) (code : Nat), 0xDC00 ≤ code → code ≤ 0xDFFF →
      st.surrogMode = false →
      (advancedSplitStep st code).buffer = [] ∧
      (advancedSplitStep st code).chars = st.chars ++ [qmark]) ∧
    advancedSplit [0x61, 0xDC00] = [qmark] ∧
    advancedSplit [0x61, 0xDC00] ≠ [[0x61], qmark] := by
  refine ⟨fun st code h1 h2 hs => ?_, by decide, by decide⟩
  rw [advancedSplitStep, if_pos ⟨h1, h2⟩, hs]
  exact ⟨rfl, rfl⟩

/-- Witness for C10_lone_low_surrogate: the general statement applied to
the state reached after reading `'a'` and the code unit 0xDC00. -/
theorem C10_lone_low_surrogate_witness :
    (advancedSplitStep ⟨[], [0x61], false, true, 0⟩ 0xDC00).buffer = [] ∧
    (advancedSplitStep ⟨[], [0x61], false, true, 0⟩ 0xDC00).chars = [qmark] :=
  C10_lone_low_surrogate.1 ⟨[], [0x61], false, true, 0⟩ 0xDC00
    (by decide) (by decide) rfl

/-! ### Claim theorems: flush batching (C2) -/

theorem writeCharN_buffer_length (n : Nat) : (writeCharN n).writeBuffer.length = n := by
  induction n with
  | zero => rfl
  | succ n ih => simp [writeCharN, writeChar, ih]

/-- C2: `flushWrites` transmits nothing (and changes nothing) on an empty
buffer; on a non-empty buffer it transmits exactly the first
`min(length, 512)` buffered edits as one batch in buffered order, leaving
exactly the remainder queued; after 600 `writeChar` calls the first flush
transmits exactly 512 edits and leaves exactly 88 buffered. -/
theorem C2_flush_batching :
    (∀ s : BotState, s.writeBuffer = [] → flushWrites s = (none, s)) ∧
    (∀ s : BotState, s.writeBuffer ≠ [] →
      (flushWrites s).1 = some (s.writeBuffer.take 512) ∧
      (s.writeBuffer.take 512).length = min s.writeBuffer.length 512 ∧
      (flushWrites s).2.writeBuffer = s.writeBuffer.drop 512 ∧
      s.writeBuffer.take 512 ++ (flushWrites s).2.writeBuffer = s.writeBuffer) ∧
    ((flushWrites (writeCharN 600)).1.map List.length = some 512 ∧
      (flushWrites (writeCharN 600)).2.writeBuffer.length = 88) := by
  refine ⟨fun s h => by simp [flushWrites, h], fun s h => ?_, ?_, ?_⟩
  · have h1 : flushWrites s =
        (some (s.writeBuffer.take 512), { s with writeBuffer := s.writeBuffer.drop 512 }) := by
      rw [flushWrites, if_neg h]
    rw [h1]
    exact ⟨rfl, by rw [List.length_take, Nat.min_comm], rfl, List.take_append_drop 512 _⟩
  · have hne : (writeCharN 600).writeBuffer ≠ [] := by
      intro h
      have := writeCharN_buffer_length 600
      rw [h] at this
      simp at this
    simp only [flushWrites, if_neg hne, Option.map_some']
    rw [List.length_take, writeCharN_buffer_length]
    norm_num
  · have hne : (writeCharN 600).writeBuffer ≠ [] := by
      intro h
      have := writeCharN_buffer_length 600
      rw [h] at this
      simp at this
    simp only [flushWrites, if_neg hne]
    rw [List.length_drop, writeCharN_buffer_length]

/-- Witness for C2_flush_batching: the empty-buffer branch at the fresh
state and the non-empty branch after one `writeChar`. -/
theorem C2_flush_batching_witness :
    flushWrites initState = (none, initState) ∧
    (flushWrites (writeCharN 1)).1 = some ((writeCharN 1).writeBuffer.take 512) :=
  ⟨C2_flush_batching.1 initState rfl,
   (C2_flush_batching.2.1 (writeCharN 1) (by decide)).1⟩

/-! ### Claim theorems: writeText (C5) -/

theorem writeTextLoop_buffer (units : List (List Nat)) :
    ∀ (s : BotState) (ix x y color bgcolor now : Int),
      (writeTextLoop s ix x y units color bgcolor now).writeBuffer =
        s.writeBuffer ++ specWriteTextEdits ix x y units s.nextEditId color bgcolor now := by
  induction units with
  | nil => intro s ix x y c b n; simp [writeTextLoop, specWriteTextEdits]
  | cons u rest ih =>
    intro s ix x y c b n
    by_cases h : u = newlineUnit
    · rw [writeTextLoop, if_pos h, specWriteTextEdits, if_pos h]
      exact ih ..
    · rw [writeTextLoop, if_neg h, specWriteTextEdits, if_neg h, ih]
      simp [writeChar]

/-- C5: for every state, starting position and text, `writeText` appends to
the outgoing buffer exactly the edits described by the spec (one
`writeChar` per segmented unit at a column advancing by 1, `"\n"`
producing no edit, resetting the column to the starting column and
advancing the row); in particular `writeText` at (0,0) with `"ab\ncd"`
produces exactly 4 edits at character positions (0,0)='a', (1,0)='b',
(0,1)='c', (1,1)='d'. -/
theorem C5_writeText_segments :
    (∀ (s : BotState) (x y : Int) (text : List Nat) (color bgcolor now : Int),
      (writeText s x y text color bgcolor now).writeBuffer =
        s.writeBuffer ++
          specWriteTextEdits x x y (advancedSplit text) s.nextEditId color bgcolor now) ∧
    (writeText initState 0 0 [0x61, 0x62, 0x0A, 0x63, 0x64] 0 (-1) 0).writeBuffer.map
        (fun e => (coordsTileToChar e.tileX e.tileY e.charX e.charY, e.char)) =
      [((0, 0), [0x61]), ((1, 0), [0x62]), ((0, 1), [0x63]), ((1, 1), [0x64])] := by
  refine ⟨fun s x y text c b n => ?_, by decide⟩
  rw [writeText, writeTextLoop_buffer]

/-! ### Claim theorems: protection decoding (C6) -/

theorem decodeProtLoop_length (data : List Char) :
    ∀ (i : Nat) (out : List (Option Nat)),
      (decodeProtLoop data i out).length = out.length := by
  induction data with
  | nil => intro i out; rfl
  | cons c rest ih =>
    intro i out
    rw [decodeProtLoop, ih]
    simp [List.length_set]

theorem decodeProtLoop_get_low (data : List Char) :
    ∀ (i : Nat) (out : List (Option Nat)) (j : Nat), j < 3 * i →
      (decodeProtLoop data i out)[j]? = out[j]? := by
  induction data with
  | nil => intro i out j _; rfl
  | cons c rest ih =>
    intro i out j hj
    rw [decodeProtLoop, ih (i + 1) _ j (by omega)]
    have h1 : ¬ (i * 3 = j) := by omega
    have h2 : ¬ (i * 3 + 1 = j) := by omega
    have h3 : ¬ (i * 3 + 2 = j) := by omega
    simp [List.getElem?_set, h1, h2, h3]

theorem decodeProtLoop_get_high (data : List Char) :
    ∀ (i : Nat) (out : List (Option Nat)) (j : Nat), 3 * (i + data.length) ≤ j →
      (decodeProtLoop data i out)[j]? = out[j]? := by
  induction data with
  | nil => intro i out j _; rfl
  | cons c rest ih =>
    intro i out j hj
    simp only [List.length_cons] at hj
    rw [decodeProtLoop, ih (i + 1) _ j (by omega)]
    have h1 : ¬ (i * 3 = j) := by omega
    have h2 : ¬ (i * 3 + 1 = j) := by omega
    have h3 : ¬ (i * 3 + 2 = j) := by omega
    simp [List.getElem?_set, h1, h2, h3]

theorem decodeProtLoop_get_at (data : List Char) :
    ∀ (i : Nat) (out : List (Option Nat)) (k : Nat) (hk : k < data.length),
      out.length = 128 → 3 * (i + data.length) ≤ 128 →
      (decodeProtLoop data i out)[(i + k) * 3]? =
          some (unshiftProtection (protFieldHigh (b64indexOf (data.get ⟨k, hk⟩)))) ∧
      (decodeProtLoop data i out)[(i + k) * 3 + 1]? =
          some (unshiftProtection (protFieldMid (b64indexOf (data.get ⟨k, hk⟩)))) ∧
      (decodeProtLoop data i out)[(i + k) * 3 + 2]? =
          some (unshiftProtection (protFieldLow (b64indexOf (data.get ⟨k, hk⟩)))) := by
  induction data with
  | nil => intro i out k hk; exact absurd hk (by simp)
  | cons c rest ih =>
    intro i out k hk hlen hbound
    simp only [List.length_cons] at hbound
    match k with
    | 0 =>
      rw [decodeProtLoop]
      have hget : (c :: rest).get ⟨0, hk⟩ = c := rfl
      rw [hget]
      have hi0 : (i + 0) * 3 = i * 3 := by ring
      have hlow : ∀ j, j < 3 * (i + 1) →
          (decodeProtLoop rest (i + 1)
            (((out.set (i * 3) (unshiftProtection (protFieldHigh (b64indexOf c)))).set
                (i * 3 + 1) (unshiftProtection (protFieldMid (b64indexOf c)))).set
                (i * 3 + 2) (unshiftProtection (protFieldLow (b64indexOf c)))))[j]? =
          (((out.set (i * 3) (unshiftProtection (protFieldHigh (b64indexOf c)))).set
                (i * 3 + 1) (unshiftProtection (protFieldMid (b64indexOf c)))).set
                (i * 3 + 2) (unshiftProtection (protFieldLow (b64indexOf c))))[j]? :=
        fun j hj => decodeProtLoop_get_low rest (i + 1) _ j hj
      refine ⟨?_, ?_, ?_⟩
      · rw [hi0, hlow (i * 3) (by omega)]
        simp only [List.getElem?_set, List.length_set]
        have : ¬ (i * 3 + 1 = i * 3) := by omega
        have : ¬ (i * 3 + 2 = i * 3) := by omega
        simp_all
        omega
      · rw [hi0, hlow (i * 3 + 1) (by omega)]
        simp only [List.getElem?_set, List.length_set]
        have : ¬ (i * 3 + 2 = i * 3 + 1) := by omega
        simp_all
        omega
      · rw [hi0, hlow (i * 3 + 2) (by omega)]
        simp only [List.getElem?_set, List.length_set]
        simp_all
        omega
    | k + 1 =>
      rw [decodeProtLoop]
      have hk' : k < rest.length := by simpa using Nat.lt_of_succ_lt_succ hk
      have hlen' : (((out.set (i * 3) (unshiftProtection (protFieldHigh (b64indexOf c)))).set
          (i * 3 + 1) (unshiftProtection (protFieldMid (b64indexOf c)))).set
          (i * 3 + 2) (unshiftProtection (protFieldLow (b64indexOf c)))).length = 128 := by
        simp [List.length_set, hlen]
      have he : i + (k + 1) = (i + 1) + k := by omega
      have hget : (c :: rest).get ⟨k + 1, hk⟩ = rest.get ⟨k, hk'⟩ := rfl
      rw [he, hget]
      exact ih (i + 1) _ k hk' hlen' (by omega)

/-- C6: decoding the packed per-cell protection string assigns each encoded
base64-alphabet character to 3 consecutive cells via its three two-bit
fields (high, middle, low), with field value 0 decoding to "inherit" (null)
and field values 1, 2, 3 decoding to explicit levels 0, 1, 2; cells beyond
the encoded length, and all 128 cells when no packed string is present,
decode to inherit; `getChar` resolves an inherited cell to the tile-level
default `writability`; and a first encoded unit with raw bits 01 10 11
(base64 value 27, the letter b) decodes the first three cells to levels
0, 1, 2. -/
theorem C6_protection_decoding :
    (unshiftProtection 0 = none ∧ unshiftProtection 1 = some 0 ∧
      unshiftProtection 2 = some 1 ∧ unshiftProtection 3 = some 2) ∧
    (∀ (hdr : Char) (data : List Char) (k : Nat) (hk : k < data.length),
      3 * data.length ≤ 128 →
      (decodeProtection (some (hdr :: data)))[k * 3]? =
          some (unshiftProtection (protFieldHigh (b64indexOf (data.get ⟨k, hk⟩)))) ∧
      (decodeProtection (some (hdr :: data)))[k * 3 + 1]? =
          some (unshiftProtection (protFieldMid (b64indexOf (data.get ⟨k, hk⟩)))) ∧
      (decodeProtection (some (hdr :: data)))[k * 3 + 2]? =
          some (unshiftProtection (protFieldLow (b64indexOf (data.get ⟨k, hk⟩))))) ∧
    (∀ (hdr : Char) (data : List Char) (j : Nat), 3 * data.length ≤ j → j < 128 →
      (decodeProtection (some (hdr :: data)))[j]? = some none) ∧
    (∀ j : Nat, j < 128 → (decodeProtection none)[j]? = some none) ∧
    (∀ (t : Tile) (cx cy : Nat), t.protections.getD (cy * 16 + cx) none = none →
      (t.getChar cx cy).protection = t.writability) ∧
    (decodeProtection (some ['A', 'b'])).take 3 = [some 0, some 1, some 2] := by
  refine ⟨⟨rfl, rfl, rfl, rfl⟩, ?_, ?_, ?_, ?_, by decide⟩
  · intro hdr data k hk hbound
    have hne : ¬ (hdr :: data = []) := by simp
    rw [decodeProtection]
    simp only [if_neg hne]
    have hdrop : (hdr :: data).drop 1 = data := rfl
    rw [hdrop]
    have h := decodeProtLoop_get_at data 0 (List.replicate 128 none) k hk
      (by simp) (by omega)
    simpa using h
  · intro hdr data j hj hj128
    have hne : ¬ (hdr :: data = []) := by simp
    rw [decodeProtection]
    simp only [if_neg hne]
    have hdrop : (hdr :: data).drop 1 = data := rfl
    rw [hdrop, decodeProtLoop_get_high data 0 _ j (by omega),
      List.getElem?_replicate, if_pos hj128]
  · intro j hj
    rw [decodeProtection]
    rw [List.getElem?_replicate, if_pos hj]
  · intro t cx cy h
    rw [List.getD_eq_getElem?_getD] at h
    simp [Tile.getChar, h]

/-- Witness for C6_protection_decoding: the quantified conjuncts applied at
the packed string consisting of a header and the single encoded unit b. -/
theorem C6_protection_decoding_witness :
    (decodeProtection (some ['A', 'b']))[0]? = some (some 0) ∧
    (decodeProtection (some ['A', 'b']))[5]? = some none ∧
    (decodeProtection none)[0]? = some none := by
  refine ⟨?_, ?_, ?_⟩
  · have h := (C6_protection_decoding.2.1 'A' ['b'] 0 (by decide) (by decide)).1
    simpa using h
  · exact C6_protection_decoding.2.2.1 'A' ['b'] 5 (by decide) (by decide)
  · exact C6_protection_decoding.2.2.2.1 0 (by decide)

/-! ### Trace lemmas: the edit-id counter -/

theorem writeTextLoop_nextEditId_mono (units : List (List Nat)) :
    ∀ (s : BotState) (ix x y color bgcolor now : Int),
      s.nextEditId ≤ (writeTextLoop s ix x y units color bgcolor now).nextEditId := by
  induction units with
  | nil => intro s ix x y c b n; simp [writeTextLoop]
  | cons u rest ih =>
    intro s ix x y c b n
    by_cases h : u = newlineUnit
    · rw [writeTextLoop, if_pos h]
      exact ih ..
    · rw [writeTextLoop, if_neg h]
      calc s.nextEditId ≤ (writeChar s x y u c b n).nextEditId := by
            simp [writeChar]
        _ ≤ _ := ih ..

theorem processAccepted_nextEditId (l : List Nat) :
    ∀ s : BotState, (processAccepted s l).1.nextEditId = s.nextEditId := by
  induction l with
  | nil => intro s; rfl
  | cons id rest ih => intro s; rw [processAccepted]; exact ih _

theorem processRejectedOne_nextEditId (s : BotState) (i : Nat) (rej : Int) :
    (processRejectedOne s i rej).1.nextEditId = s.nextEditId := by
  rw [processRejectedOne]
  split
  · rfl
  · split <;> rfl

theorem processRejected_nextEditId (l : List (Nat × Int)) :
    ∀ s : BotState, (processRejected s l).1.nextEditId = s.nextEditId := by
  induction l with
  | nil => intro s; rfl
  | cons p rest ih =>
    intro s
    rw [processRejected]
    rw [ih, processRejectedOne_nextEditId]

theorem handleWrite_nextEditId (s : BotState) (a : List Nat) (rj : List (Nat × Int)) :
    (handleWrite s a rj).1.nextEditId = s.nextEditId := by
  rw [handleWrite]
  split
  · simp only
    rw [processRejected_nextEditId, processAccepted_nextEditId]
  · simp only
    rw [processRejected_nextEditId, processAccepted_nextEditId]

theorem flushWrites_nextEditId (s : BotState) :
    (flushWrites s).2.nextEditId = s.nextEditId := by
  rw [flushWrites]
  split <;> rfl

theorem applyOp_nextEditId_mono (s : BotState) (op : BotOp) :
    s.nextEditId ≤ (applyOp s op).state.nextEditId := by
  cases op with
  | opWriteChar x y ch c b n => simp [applyOp, writeChar]
  | opWriteText x y t c b n => exact writeTextLoop_nextEditId_mono ..
  | opFlush => simp [applyOp, flushWrites_nextEditId]
  | opWriteMsg a rj => simp [applyOp, handleWrite_nextEditId]
  | opClear => simp [applyOp, clearWriteBuffer]

theorem runOps_nextEditId_mono (ops : List BotOp) :
    ∀ s : BotState, s.nextEditId ≤ (runOps s ops).state.nextEditId := by
  induction ops with
  | nil => intro s; exact Nat.le_refl _
  | cons op rest ih =>
    intro s
    exact Nat.le_trans (applyOp_nextEditId_mono s op) (ih (applyOp s op).state)

theorem runOps_assigned_increasing (ops : List BotOp) :
    ∀ s : BotState, List.Pairwise (· < ·) (runOps s ops).assigned ∧
      ∀ i ∈ (runOps s ops).assigned,
        s.nextEditId < i ∧ i ≤ (runOps s ops).state.nextEditId := by
  induction ops with
  | nil => intro s; simp [runOps]
  | cons op rest ih =>
    intro s
    have hmono := applyOp_nextEditId_mono s op
    have hmono2 := runOps_nextEditId_mono rest (applyOp s op).state
    have hstate : (runOps s (op :: rest)).state = (runOps (applyOp s op).state rest).state := rfl
    have hassigned : (runOps s (op :: rest)).assigned =
        assignedIds s op ++ (runOps (applyOp s op).state rest).assigned := rfl
    constructor
    · rw [hassigned]
      apply List.pairwise_append.2
      refine ⟨?_, (ih _).1, ?_⟩
      · unfold assignedIds
        exact List.pairwise_lt_range' ..
      · intro a ha b hb
        have ha' := List.mem_range'_1.1 (by simpa [assignedIds] using ha)
        have hb' := ((ih _).2 b hb).1
        omega
    · intro i hi
      rw [hassigned] at hi
      rw [hstate]
      rcases List.mem_append.1 hi with h | h
      · have h' := List.mem_range'_1.1 (by simpa [assignedIds] using h)
        exact ⟨by omega, by omega⟩
      · have h' := (ih _).2 i h
        exact ⟨by omega, h'.2⟩

/-! ### Claim theorems: edit-id uniqueness and stability (C8) -/

/-- C8: over every trace of write-pipeline operations from a fresh bot, the
edit ids assigned by `writeChar` calls are strictly increasing (hence
unique and never reused); re-queuing a rate-limited edit re-appends the
stored edit tuple itself (same id, no new id assigned); and flushing moves
edits verbatim (the transmitted batch and the remaining buffer together
are exactly the old buffer). -/
theorem C8_edit_ids_monotone :
    (∀ ops : List BotOp, List.Pairwise (· < ·) (runOps initState ops).assigned) ∧
    (∀ (s : BotState) (i : Nat) (rej : Int) (e : Write), ¬ (rej = 1 ∨ rej = 4) →
      mapGet s.waitingEdits i = some e →
      (processRejectedOne s i rej).1.writeBuffer = s.writeBuffer ++ [e] ∧
      (WaitingWF s → e.id = i)) ∧
    (∀ (s : BotState) (batch : List Write), (flushWrites s).1 = some batch →
      batch ++ (flushWrites s).2.writeBuffer = s.writeBuffer) := by
  refine ⟨fun ops => (runOps_assigned_increasing ops initState).1,
    fun s i rej e hrej hget => ?_, fun s batch hb => ?_⟩
  · rw [processRejectedOne, if_neg hrej, hget]
    exact ⟨rfl, fun hwf => mapGet_some_id hwf hget⟩
  · rw [flushWrites] at hb ⊢
    split at hb
    · exact absurd hb (by simp)
    · simp only [Option.some.injEq] at hb
      subst hb
      rw [if_neg]
      · exact List.take_append_drop 512 _
      · assumption

/-- Witness for C8_edit_ids_monotone at concrete inputs: a two-write trace,
a rate-limited re-queue of a stored edit, and a flush of one edit. -/
theorem C8_edit_ids_monotone_witness :
    List.Pairwise (· < ·)
      (runOps initState [BotOp.opWriteChar 0 0 [0x61] 0 (-1) 0,
        BotOp.opWriteChar 1 0 [0x62] 0 (-1) 0]).assigned ∧
    (processRejectedOne (writeCharN 1) 1 2).1.writeBuffer =
      (writeCharN 1).writeBuffer ++ [mkEdit 0 0 [0x45] 1 0 (-1) 0] ∧
    (writeCharN 1).writeBuffer.take 512 ++
      (flushWrites (writeCharN 1)).2.writeBuffer = (writeCharN 1).writeBuffer := by
  refine ⟨C8_edit_ids_monotone.1 _, ?_, ?_⟩
  · exact (C8_edit_ids_monotone.2.1 (writeCharN 1) 1 2 (mkEdit 0 0 [0x45] 1 0 (-1) 0)
      (by decide) (by decide)).1
  · exact C8_edit_ids_monotone.2.2 (writeCharN 1) ((writeCharN 1).writeBuffer.take 512)
      (by decide)

/-! ### Trace lemmas: a retired edit id stays retired -/

theorem IdGone_mapDelete {id : Nat} {s : BotState} (h : IdGone id s) (k : Nat) :
    IdGone id { s with waitingEdits := mapDelete s.waitingEdits k } := by
  obtain ⟨h1, h2, h3, h4⟩ := h
  refine ⟨?_, h2, h3, ?_⟩
  · rw [mapGet_eq_none_iff]
    intro p hp
    exact (mapGet_eq_none_iff _ _).1 h1 p (mem_mapDelete hp)
  · intro p hp
    exact h4 p (mem_mapDelete hp)

theorem IdGone_writeChar {id : Nat} {s : BotState} (h : IdGone id s)
    (x y : Int) (ch : List Nat) (c b n : Int) :
    IdGone id (writeChar s x y ch c b n) := by
  obtain ⟨h1, h2, h3, h4⟩ := h
  refine ⟨?_, ?_, ?_, ?_⟩
  · rw [mapGet_eq_none_iff]
    intro p hp
    rcases mem_mapSet hp with rfl | hpm
    · simp only
      omega
    · exact (mapGet_eq_none_iff _ _).1 h1 p hpm
  · intro e he
    rcases List.mem_append.1 he with hm | hm
    · exact h2 e hm
    · have : e = mkEdit x y ch (s.nextEditId + 1) c b n := by simpa using hm
      subst this
      simp only [mkEdit]
      omega
  · simp only [writeChar]
    omega
  · intro p hp
    rcases mem_mapSet hp with rfl | hpm
    · rfl
    · exact h4 p hpm

theorem IdGone_writeTextLoop {id : Nat} (units : List (List Nat)) :
    ∀ (s : BotState) (ix x y c b n : Int), IdGone id s →
      IdGone id (writeTextLoop s ix x y units c b n) := by
  induction units with
  | nil => intro s ix x y c b n h; exact h
  | cons u rest ih =>
    intro s ix x y c b n h
    by_cases hu : u = newlineUnit
    · rw [writeTextLoop, if_pos hu]
      exact ih s ix ix (y + 1) c b n h
    · rw [writeTextLoop, if_neg hu]
      exact ih (writeChar s x y u c b n) ix (x + 1) y c b n (IdGone_writeChar h x y u c b n)

theorem IdGone_processAccepted {id : Nat} (l : List Nat) :
    ∀ s : BotState, IdGone id s → IdGone id (processAccepted s l).1 := by
  induction l with
  | nil => intro s h; exact h
  | cons k rest ih =>
    intro s h
    rw [processAccepted]
    exact ih _ (IdGone_mapDelete h k)

theorem IdGone_processRejectedOne {id : Nat} {s : BotState} (h : IdGone id s)
    (i : Nat) (rej : Int) : IdGone id (processRejectedOne s i rej).1 := by
  rw [processRejectedOne]
  split
  · exact IdGone_mapDelete h i
  · split
    · exact h
    · rename_i e hget
      obtain ⟨h1, h2, h3, h4⟩ := h
      refine ⟨h1, ?_, h3, h4⟩
      intro e' he'
      rcases List.mem_append.1 he' with hm | hm
      · exact h2 e' hm
      · have he : e' = e := by simpa using hm
        subst he
        have hii : i ≠ id := by
          intro hcontr
          rw [hcontr, h1] at hget
          exact Option.noConfusion hget
        rw [mapGet_some_id h4 hget]
        exact hii

theorem IdGone_processRejected {id : Nat} (l : List (Nat × Int)) :
    ∀ s : BotState, IdGone id s → IdGone id (processRejected s l).1 := by
  induction l with
  | nil => intro s h; exact h
  | cons p rest ih =>
    intro s h
    rw [processRejected]
    exact ih _ (IdGone_processRejectedOne h p.1 p.2)

theorem IdGone_handleWrite {id : Nat} {s : BotState} (h : IdGone id s)
    (a : List Nat) (rj : List (Nat × Int)) : IdGone id (handleWrite s a rj).1 := by
  rw [handleWrite]
  have hh := IdGone_processRejected rj _ (IdGone_processAccepted a s h)
  split
  · exact hh
  · exact hh

theorem IdGone_clearWriteBuffer {id : Nat} {s : BotState} (h : IdGone id s) :
    IdGone id (clearWriteBuffer s).1 := by
  obtain ⟨_, _, h3, _⟩ := h
  exact ⟨rfl, by simp [clearWriteBuffer], h3, by simp [clearWriteBuffer, WaitingWF]⟩

theorem IdGone_flushWrites {id : Nat} {s : BotState} (h : IdGone id s) :
    IdGone id (flushWrites s).2 ∧
      ∀ batch, (flushWrites s).1 = some batch → ∀ e ∈ batch, e.id ≠ id := by
  obtain ⟨h1, h2, h3, h4⟩ := h
  rw [flushWrites]
  split
  · exact ⟨⟨h1, h2, h3, h4⟩, fun batch hb => absurd hb (by simp)⟩
  · refine ⟨⟨h1, ?_, h3, h4⟩, ?_⟩
    · intro e he
      exact h2 e (List.drop_subset 512 _ he)
    · intro batch hb e he
      simp only [Option.some.injEq] at hb
      subst hb
      exact h2 e (List.take_subset 512 _ he)

theorem IdGone_applyOp {id : Nat} {s : BotState} (h : IdGone id s) (op : BotOp) :
    IdGone id (applyOp s op).state ∧
      ∀ b ∈ (applyOp s op).batches, ∀ e ∈ b, e.id ≠ id := by
  cases op with
  | opWriteChar x y ch c b n => exact ⟨IdGone_writeChar h x y ch c b n, by simp [applyOp]⟩
  | opWriteText x y t c b n =>
    exact ⟨IdGone_writeTextLoop (advancedSplit t) s x x y c b n h, by simp [applyOp]⟩
  | opFlush =>
    have hf := IdGone_flushWrites h
    refine ⟨hf.1, ?_⟩
    intro b hb e he
    rcases hflush : (flushWrites s).1 with _ | ws
    · simp [applyOp, hflush] at hb
    · have : b = ws := by simpa [applyOp, hflush] using hb
      subst this
      exact hf.2 b hflush e he
  | opWriteMsg a rj => exact ⟨IdGone_handleWrite h a rj, by simp [applyOp]⟩
  | opClear => exact ⟨IdGone_clearWriteBuffer h, by simp [applyOp]⟩

theorem IdGone_runOps {id : Nat} (ops : List BotOp) :
    ∀ s : BotState, IdGone id s →
      ∀ b ∈ (runOps s ops).batches, ∀ e ∈ b, e.id ≠ id := by
  induction ops with
  | nil => intro s _ b hb; simp [runOps] at hb
  | cons op rest ih =>
    intro s h b hb
    have hstep := IdGone_applyOp h op
    have hb' : b ∈ (applyOp s op).batches ++ (runOps (applyOp s op).state rest).batches := hb
    rcases List.mem_append.1 hb' with hm | hm
    · exact hstep.2 b hm
    · exact ih _ hstep.1 b hm

/-! ### Claim theorems: write-response rejection handling (C1) -/

/-- C1, counterexample to the claim as stated: from `c1State`, processing a
rejection of edit 7 with transient reason code 2 re-appends edit 7 behind
the 512 edits already buffered, so the next flush transmits exactly the
512 older edits and edit 7 is NOT included in the next transmitted batch
(its id appears nowhere in it), contradicting "so it is included in the
next transmitted batch". -/
theorem C1_counterexample :
    mapGet c1State.waitingEdits 7 = some edit7 ∧
    (processRejectedOne c1State 7 2).1.writeBuffer =
      List.replicate 512 dummyEdit ++ [edit7] ∧
    (flushWrites (processRejectedOne c1State 7 2).1).1 =
      some (List.replicate 512 dummyEdit) ∧
    7 ∉ (List.replicate 512 dummyEdit).map Write.id := by
  have hget : mapGet c1State.waitingEdits 7 = some edit7 := rfl
  have happ : (processRejectedOne c1State 7 2).1.writeBuffer =
      List.replicate 512 dummyEdit ++ [edit7] := rfl
  refine ⟨hget, happ, ?_, ?_⟩
  · have hne : (processRejectedOne c1State 7 2).1.writeBuffer ≠ [] := by
      rw [happ]
      exact List.append_ne_nil_of_right_ne_nil _ (by simp)
    rw [flushWrites, if_neg hne]
    simp only
    rw [happ, List.take_left' (List.length_replicate 512 dummyEdit)]
  · intro hmem
    rcases List.mem_map.1 hmem with ⟨e, he, hid⟩
    rw [List.mem_replicate] at he
    rw [he.2] at hid
    exact absurd hid (by decide)

/-- C1, amended: for every edit id in a write-response rejected map, reason
codes 1 and 4 remove the edit from the waiting-edit table, emit a
"rejected" write-result event and (when the edit was in flight, i.e. no
longer in the outgoing buffer) the id never reappears in any batch
transmitted by any later sequence of operations; any other reason code
emits a "rate-limited" event and re-appends the original stored edit (same
tuple, same id, no new id assigned) to the end of the outgoing buffer,
leaving it in the waiting-edit table; the re-queued edit is included in the
next transmitted batch provided fewer than 512 edits precede it in the
buffer (otherwise it waits for a later flush). -/
theorem C1_rejection_handling :
    (∀ (s : BotState) (i : Nat) (rej : Int), (rej = 1 ∨ rej = 4) →
      (processRejectedOne s i rej).1 =
        { s with waitingEdits := mapDelete s.waitingEdits i } ∧
      mapGet (processRejectedOne s i rej).1.waitingEdits i = none ∧
      (processRejectedOne s i rej).2 =
        [BotEvent.writeResult i WriteResultState.rejected]) ∧
    (∀ (s : BotState) (i : Nat) (rej : Int) (ops : List BotOp), (rej = 1 ∨ rej = 4) →
      WaitingWF s → i ≤ s.nextEditId → (∀ e ∈ s.writeBuffer, e.id ≠ i) →
      ∀ b ∈ (runOps (processRejectedOne s i rej).1 ops).batches, ∀ e ∈ b, e.id ≠ i) ∧
    (∀ (s : BotState) (i : Nat) (rej : Int) (e : Write), ¬ (rej = 1 ∨ rej = 4) →
      mapGet s.waitingEdits i = some e →
      (processRejectedOne s i rej).2 =
        [BotEvent.writeResult i WriteResultState.ratelimited] ∧
      (processRejectedOne s i rej).1.writeBuffer = s.writeBuffer ++ [e] ∧
      (processRejectedOne s i rej).1.waitingEdits = s.waitingEdits ∧
      (WaitingWF s → e.id = i) ∧
      (s.writeBuffer.length < 512 →
        (flushWrites (processRejectedOne s i rej).1).1 =
          some ((s.writeBuffer ++ [e]).take 512) ∧
        e ∈ (s.writeBuffer ++ [e]).take 512)) := by
  refine ⟨fun s i rej h => ?_, fun s i rej ops h hwf hle hbuf => ?_,
    fun s i rej e hrej hget => ?_⟩
  · rw [processRejectedOne, if_pos h]
    exact ⟨rfl, mapGet_delete_self s.waitingEdits i, rfl⟩
  · have hgone : IdGone i (processRejectedOne s i rej).1 := by
      rw [processRejectedOne, if_pos h]
      refine ⟨mapGet_delete_self s.waitingEdits i, hbuf, hle, ?_⟩
      intro p hp
      exact hwf p (mem_mapDelete hp)
    exact IdGone_runOps ops _ hgone
  · rw [processRejectedOne, if_neg hrej, hget]
    refine ⟨rfl, rfl, rfl, fun hwf => mapGet_some_id hwf hget, fun hlen => ?_⟩
    have hne : s.writeBuffer ++ [e] ≠ [] := by simp
    constructor
    · rw [flushWrites]
      rw [if_neg hne]
    · rw [List.take_of_length_le (by simp; omega)]
      simp

/-- Witness for C1_rejection_handling: all three parts applied at edit 7 of
`c1SmallState`, with a concrete follow-up trace for the permanent case. -/
theorem C1_rejection_handling_witness :
    mapGet (processRejectedOne c1SmallState 7 1).1.waitingEdits 7 = none ∧
    (mkEdit 0 0 [0x42] 8 0 (-1) 0).id ≠ 7 ∧
    (processRejectedOne c1SmallState 7 2).1.writeBuffer =
      c1SmallState.writeBuffer ++ [edit7] ∧
    edit7 ∈ (c1SmallState.writeBuffer ++ [edit7]).take 512 := by
  refine ⟨(C1_rejection_handling.1 c1SmallState 7 1 (Or.inl rfl)).2.1, ?_, ?_, ?_⟩
  · exact C1_rejection_handling.2.1 c1SmallState 7 1
      [BotOp.opWriteChar 0 0 [0x42] 0 (-1) 0, BotOp.opFlush] (Or.inl rfl)
      (fun p hp => by
        have hp' : p = (7, edit7) := by simpa [c1SmallState] using hp
        rw [hp']
        rfl)
      (by decide) (fun e he => by simp [c1SmallState] at he)
      [mkEdit 0 0 [0x42] 8 0 (-1) 0] (by decide)
      (mkEdit 0 0 [0x42] 8 0 (-1) 0) (by decide)
  · exact (C1_rejection_handling.2.2 c1SmallState 7 2 edit7 (by decide) rfl).2.1
  · exact ((C1_rejection_handling.2.2 c1SmallState 7 2 edit7 (by decide) rfl).2.2.2.2
      (by decide)).2

/-! ### Claim theorems: stale acknowledgments after clearWriteBuffer (C3) -/

/-- C3, counterexample to the claim as stated: after `clearWriteBuffer`, an
incoming write response accepting the discarded id 7 makes no state change
but does produce observable effects for that id: a `writeResult` event for
id 7 is emitted (and a `writeBufferEmpty` event follows), contradicting
"produces no observable effect for that id". -/
theorem C3_counterexample :
    (handleWrite c3State [7] []).1 = c3State ∧
    (handleWrite c3State [7] []).2 =
      [BotEvent.writeResult 7 WriteResultState.accepted, BotEvent.writeBufferEmpty] := by
  exact ⟨rfl, rfl⟩

/-- C3, amended: after the id has been discarded (absent from the
waiting-edit table), a later write response referencing it makes no state
change — deletion is a no-op and no edit is re-queued — but it is not
silently ignored: a `writeResult` event (accepted, rejected or
rate-limited according to the response) is still emitted for the stale id,
followed by a `writeBufferEmpty` event when both the waiting-edit table
and the outgoing buffer are empty. -/
theorem C3_stale_ids_ignored :
    (∀ (s : BotState) (id : Nat), mapGet s.waitingEdits id = none →
      handleWrite s [id] [] =
        (s, BotEvent.writeResult id WriteResultState.accepted ::
          (if s.waitingEdits = [] ∧ s.writeBuffer = []
            then [BotEvent.writeBufferEmpty] else []))) ∧
    (∀ (s : BotState) (id : Nat) (r : Int), mapGet s.waitingEdits id = none →
      handleWrite s [] [(id, r)] =
        (s, BotEvent.writeResult id
            (if r = 1 ∨ r = 4 then WriteResultState.rejected
              else WriteResultState.ratelimited) ::
          (if s.waitingEdits = [] ∧ s.writeBuffer = []
            then [BotEvent.writeBufferEmpty] else []))) := by
  constructor
  · intro s id h
    have hdel := mapDelete_eq_self_of_get_none h
    rw [handleWrite]
    simp only [processAccepted, processRejected, hdel]
    by_cases hc : s.waitingEdits = [] ∧ s.writeBuffer = []
    · rw [if_pos hc, if_pos hc]
      simp
    · rw [if_neg hc, if_neg hc]
      simp
  · intro s id r h
    have hdel := mapDelete_eq_self_of_get_none h
    rw [handleWrite]
    by_cases hr : r = 1 ∨ r = 4
    · simp only [processAccepted, processRejected, processRejectedOne, if_pos hr, hdel]
      by_cases hc : s.waitingEdits = [] ∧ s.writeBuffer = []
      · rw [if_pos hc, if_pos hc]
        simp
      · rw [if_neg hc, if_neg hc]
        simp
    · simp only [processAccepted, processRejected, processRejectedOne, if_neg hr, h]
      by_cases hc : s.waitingEdits = [] ∧ s.writeBuffer = []
      · rw [if_pos hc, if_pos hc]
        simp
      · rw [if_neg hc, if_neg hc]
        simp

/-- Witness for C3_stale_ids_ignored: both parts applied to the cleared
state and the stale id 9. -/
theorem C3_stale_ids_ignored_witness :
    handleWrite c3State [9] [] =
      (c3State, [BotEvent.writeResult 9 WriteResultState.accepted,
        BotEvent.writeBufferEmpty]) ∧
    handleWrite c3State [] [(9, 2)] =
      (c3State, [BotEvent.writeResult 9 WriteResultState.ratelimited,
        BotEvent.writeBufferEmpty]) := by
  constructor
  · have h := C3_stale_ids_ignored.1 c3State 9 rfl
    simpa using h
  · have h := C3_stale_ids_ignored.2 c3State 9 2 rfl
    simpa using h

end SimpleOwotBot
